import Mathlib

/-!
Verification of the flaky-test reporting script (`src/hello.py`).

The script parses semi-structured HTML-embedded log lines (`parse_test_line`)
and aggregates the parsed records into a ranked per-command summary (`main`).
This file gives a shallow embedding of both parts over `List Char` / `String`
and proves or refutes the specification claims about them.

Modelling notes:
  * Python regexes used by the source (`^(\d{2}-\d{2} \d{2}:\d{2}:\d{2}):`,
    `\((\d+s)\)`, `\(code: (\d+)\)`, `\(target: ([^)]+)\)`) are deterministic
    on their alphabets (greedy repetition never benefits from backtracking,
    since the character class and the following literal are disjoint), so each
    is embedded as a direct left-to-right scanner.
  * `BeautifulSoup(line).find("span", string=re.compile("(FAILED|FLAKED)"))`
    is modelled by parsing the line into a fragment tree with html.parser's
    stack semantics (a stray end tag is ignored, an end tag closes the
    nearest matching open element, end of input leaves open elements holding
    everything after them), computing `tag.string` per BeautifulSoup (the
    text of a single text child, or recursively the string of a single child
    element), and taking the first span in document order whose string
    contains "FAILED" or "FLAKED" as a substring (`re.search` semantics).
    `soup.find("a")` with `attrs.get("href")` is modelled as the first
    `<a ...>` open tag and the value of its `href="..."` attribute.
  * Python `int()` applied to a regex group is a fallible conversion, so the
    parser returns `Option TestResultRecord`, with `none` exactly when that
    conversion would raise; totality is proved (claim on never failing).
  * The pandas aggregation is embedded list-functionally: `groupby` sorts the
    distinct non-null keys ascending, `count` counts non-null statuses,
    `unique` deduplicates keeping first appearance (NaN included).
    `sort_values(ascending=False)` uses pandas' default kind='quicksort',
    which is documented as not stable, so only the descending order of the
    sort key is a program guarantee; the embedding fixes one concrete
    descending sort (`sortDesc`) and the theorems rely only on that key
    order.  Tie order is relied on only in the two-element counterexample,
    where numpy's sort provably preserves the input order of equal keys.
-/

/-- Characters stripped by Python `str.strip()`. -/
def pySpace (c : Char) : Bool :=
  c = ' ' || c = '\t' || c = '\n' || c = '\r' || c = '\x0b' || c = '\x0c'

/-- Python `str.strip()` on a character list. -/
def pyStrip (l : List Char) : List Char :=
  ((l.dropWhile pySpace).reverse.dropWhile pySpace).reverse

/-- Python `str.find`: index of the first occurrence of `pat` in `l`, `none`
for Python's `-1`. -/
def findSubstr (l pat : List Char) : Option Nat :=
  if pat.isPrefixOf l then some 0
  else
    match l with
    | [] => none
    | _ :: cs => (findSubstr cs pat).map (· + 1)

/-- `(findSubstr l pat).isSome`: whether `pat` occurs in `l`. -/
def containsStr (l pat : List Char) : Bool :=
  (findSubstr l pat).isSome

/-- First-appearance deduplication with an accumulator of already seen values
(models `pandas.Series.unique`, which keeps NaN as a value). -/
def dedupFirstAux {α : Type} [DecidableEq α] : List α → List α → List α
  | [], _ => []
  | x :: xs, seen => if x ∈ seen then dedupFirstAux xs seen else x :: dedupFirstAux xs (x :: seen)

def dedupFirst {α : Type} [DecidableEq α] (l : List α) : List α :=
  dedupFirstAux l []

/-- Python `int()` on the digit strings produced by a `\d+` regex group:
defined (`some`) exactly when the string is a non-empty all-digit string. -/
def decimalToNat? (ds : List Char) : Option Nat :=
  if ds.isEmpty then none
  else if ds.all Char.isDigit then
    some (ds.foldl (fun n c => 10 * n + (c.toNat - 48)) 0)
  else none

/-- `re.match(r"^(\d{2}-\d{2} \d{2}:\d{2}:\d{2}):", line)`: the captured
group (without the trailing colon), anchored at the start of the line. -/
def matchTimestamp (l : List Char) : Option String :=
  match l with
  | d1 :: d2 :: '-' :: d3 :: d4 :: ' ' :: h1 :: h2 :: ':' :: m1 :: m2 :: ':' :: s1 :: s2 :: ':' :: _ =>
    if d1.isDigit && d2.isDigit && d3.isDigit && d4.isDigit &&
       h1.isDigit && h2.isDigit && m1.isDigit && m2.isDigit &&
       s1.isDigit && s2.isDigit then
      some (String.mk [d1, d2, '-', d3, d4, ' ', h1, h2, ':', m1, m2, ':', s1, s2])
    else none
  | _ => none

/-- Characters that end an HTML tag name (per `html.parser`'s tokenizer). -/
def nameBoundary (c : Char) : Bool :=
  c = ' ' || c = '\t' || c = '\n' || c = '\r' || c = '\x0c' || c = '/'

/-- Characters that terminate an HTML tag name: `nameBoundary` plus `>`. -/
def htmlNameStop (c : Char) : Bool :=
  nameBoundary c || c = '>'

/-- Consume a tag's attribute region: drop everything up to and including
the next `>`. -/
def skipTagEnd (l : List Char) : List Char :=
  match l.dropWhile (fun c => c ≠ '>') with
  | _ :: r => r
  | [] => []

/-- If `l` begins with a start tag `<name ...>`: its name and the input
after the closing `>` (html.parser: a tag opens on `<` + letter). -/
def startTag? : List Char → Option (List Char × List Char)
  | '<' :: c :: rest =>
    if c.isAlpha then
      some ((c :: rest).takeWhile (fun x => !htmlNameStop x),
            skipTagEnd ((c :: rest).dropWhile (fun x => !htmlNameStop x)))
    else none
  | _ => none

/-- If `l` begins with an end tag `</name ...>`: its name and the input
after the closing `>`. -/
def endTag? : List Char → Option (List Char × List Char)
  | '<' :: '/' :: c :: rest =>
    if c.isAlpha then
      some ((c :: rest).takeWhile (fun x => !htmlNameStop x),
            skipTagEnd ((c :: rest).dropWhile (fun x => !htmlNameStop x)))
    else none
  | _ => none

/-- A node of the fragment tree BeautifulSoup's html.parser builder
produces: a text run or an element with children. -/
inductive Node where
  | text (s : List Char)
  | elem (name : List Char) (children : List Node)

/-- Build the sibling nodes of `l`, with `stack` the names of the currently
open ancestor elements, following html.parser + BeautifulSoup stack
semantics: an end tag closes the nearest matching open element (implicitly
closing anything still open inside it), a stray end tag is ignored, and end
of input leaves each open element holding everything after its start tag.
Returns the nodes and the unconsumed input (which, when non-empty, starts
with an end tag matching a name in `stack`).  `fuel` only bounds the
recursion; `l.length + 1` always suffices, since every recursion level
either consumes at least one character or immediately returns. -/
def parseNodes : Nat → List Char → List (List Char) → List Node × List Char
  | 0, l, _ => ([], l)
  | _ + 1, [], _ => ([], [])
  | fuel + 1, c :: cs, stack =>
    match endTag? (c :: cs) with
    | some (name, rest) =>
      if name ∈ stack then ([], c :: cs)
      else parseNodes fuel rest stack
    | none =>
      match startTag? (c :: cs) with
      | some (name, rest) =>
        let child := parseNodes fuel rest (name :: stack)
        let afterClose :=
          match endTag? child.2 with
          | some (cname, rest2) => if cname = name then rest2 else child.2
          | none => child.2
        let siblings := parseNodes fuel afterClose stack
        (Node.elem name child.1 :: siblings.1, siblings.2)
      | none =>
        let t := (c :: cs).takeWhile (fun x => x ≠ '<')
        if t.isEmpty then
          let siblings := parseNodes fuel cs stack
          (Node.text [c] :: siblings.1, siblings.2)
        else
          let siblings := parseNodes fuel ((c :: cs).drop t.length) stack
          (Node.text t :: siblings.1, siblings.2)

/-- BeautifulSoup `tag.string`: a text node is its own string; an element
has a string exactly when it has a single child, recursively — so a
single-child chain such as `<span><b>FAILED</b></span>` has string
"FAILED", while an element with zero or several children has none.
The fuel (always at least the tree depth here) only keeps the recursion
structural over the nested inductive. -/
def nodeString : Nat → Node → Option (List Char)
  | 0, _ => none
  | _ + 1, .text s => some s
  | fuel + 1, .elem _ [child] => nodeString fuel child
  | _ + 1, .elem _ _ => none

/-- The `tag.string` of every `<span>` element, in document (pre-order)
order, skipping spans whose string is None — exactly the candidates
`soup.find("span", string=...)` tests, in the order it tests them.
The fuel (always at least the total node count here) only keeps the
recursion structural over the nested inductive. -/
def spanStringsOfNodes : Nat → List Node → List (List Char)
  | 0, _ => []
  | _ + 1, [] => []
  | fuel + 1, Node.text _ :: rest => spanStringsOfNodes fuel rest
  | fuel + 1, Node.elem name children :: rest =>
    (if name = "span".data then
      match nodeString fuel (Node.elem name children) with
      | some s => [s]
      | none => []
    else []) ++ spanStringsOfNodes fuel children ++ spanStringsOfNodes fuel rest

/-- Document-order span strings of a raw line (`l.length + 1` bounds both
the node count and the tree depth, so the fuel is never exhausted). -/
def spanStrings (l : List Char) : List (List Char) :=
  spanStringsOfNodes (l.length + 1) (parseNodes (l.length + 1) l []).1

def kwFAILED : List Char := "FAILED".data
def kwFLAKED : List Char := "FLAKED".data

/-- `re.compile(r"(FAILED|FLAKED)").search` on a span's text: substring test. -/
def hasKey (t : List Char) : Bool :=
  containsStr t kwFAILED || containsStr t kwFLAKED

/-- If an `<a ...>` open tag starts at `l`, its attribute region (the
characters between the tag name and the closing `>`). -/
def aAttrsAt (l : List Char) : Option (List Char) :=
  match l with
  | '<' :: 'a' :: d :: dr =>
    if d = '>' then some []
    else if nameBoundary d then some ((d :: dr).takeWhile (fun x => x ≠ '>'))
    else none
  | _ => none

/-- `soup.find("a")`: attribute region of the first `<a ...>` tag. -/
def findATagAttrs : List Char → Option (List Char)
  | [] => none
  | c :: cs =>
    match aAttrsAt (c :: cs) with
    | some a => some a
    | none => findATagAttrs cs

def hrefMark : List Char := "href=\"".data

/-- `link_tag.attrs.get("href")`: the quoted `href` value, if present. -/
def hrefOf (attrs : List Char) : Option (List Char) :=
  (findSubstr attrs hrefMark).map fun i =>
    (attrs.drop (i + hrefMark.length)).takeWhile (fun c => c ≠ '"')

/-- The 12-character needle of `line.find("</a></span>)")`. -/
def marker12 : List Char := "</a></span>)".data

/-- The 13-character marker-with-colon `"</a></span>):"` named by the spec. -/
def markerColon : List Char := "</a></span>):".data

/-- Lines 30-33 of the source: `link_end = line.find("</a></span>)") +
len("</a></span>):")`; found ⇒ `line[link_end:].strip()`, else `""`.
Note the needle omits the colon while 13 characters are skipped. -/
def restOfLine (l : List Char) : List Char :=
  match findSubstr l marker12 with
  | some i => pyStrip (l.drop (i + 13))
  | none => []

/-- `re.search(r"\((\d+s)\)", rest)` tried at one position: the captured
group `digits ++ "s"` when the token `(<digits>s)` starts here. -/
def matchDurAt : List Char → Option (List Char)
  | [] => none
  | c :: rest =>
    if c = '(' ∧ (rest.takeWhile Char.isDigit).isEmpty = false ∧
       ['s', ')'].isPrefixOf (rest.dropWhile Char.isDigit) then
      some (rest.takeWhile Char.isDigit ++ ['s'])
    else none

/-- Whether a `(<digits>s)` token occurs anywhere in `l` (at any position). -/
def hasDurB : List Char → Bool
  | [] => false
  | c :: cs => (matchDurAt (c :: cs)).isSome || hasDurB cs

/-- Leftmost duration token: `(text before the match, captured group)`. -/
def findDur : List Char → Option (List Char × List Char)
  | [] => none
  | c :: cs =>
    match matchDurAt (c :: cs) with
    | some g => some ([], g)
    | none => (findDur cs).map (fun p => (c :: p.1, p.2))

def codeMark : List Char := "(code: ".data

/-- `re.search(r"\(code: (\d+)\)", rest)` tried at one position. -/
def matchCodeAt (l : List Char) : Option (List Char) :=
  if codeMark.isPrefixOf l then
    if ((l.drop codeMark.length).takeWhile Char.isDigit).isEmpty = false ∧
       [')'].isPrefixOf ((l.drop codeMark.length).dropWhile Char.isDigit) then
      some ((l.drop codeMark.length).takeWhile Char.isDigit)
    else none
  else none

/-- Leftmost `(code: <digits>)` match: the captured digit string. -/
def findCode : List Char → Option (List Char)
  | [] => none
  | c :: cs =>
    match matchCodeAt (c :: cs) with
    | some ds => some ds
    | none => findCode cs

def targetMark : List Char := "(target: ".data

/-- `re.search(r"\(target: ([^)]+)\)", rest)` tried at one position. -/
def matchTargetAt (l : List Char) : Option (List Char) :=
  if targetMark.isPrefixOf l then
    if ((l.drop targetMark.length).takeWhile (fun c => c ≠ ')')).isEmpty = false ∧
       [')'].isPrefixOf ((l.drop targetMark.length).dropWhile (fun c => c ≠ ')')) then
      some ((l.drop targetMark.length).takeWhile (fun c => c ≠ ')'))
    else none
  else none

/-- Leftmost `(target: ...)` match: the captured text. -/
def findTarget : List Char → Option (List Char)
  | [] => none
  | c :: cs =>
    match matchTargetAt (c :: cs) with
    | some ts => some ts
    | none => findTarget cs

/-- The record returned by `parse_test_line` (dict keys `date-time`, `status`,
`link`, `test_command`, `duration`, `exit_code`, `target`). -/
structure TestResultRecord where
  timestamp : Option String
  status : Option String
  link : Option String
  test_command : Option String
  duration : Option String
  exit_code : Option Nat
  target : Option String
deriving DecidableEq, Repr

/-- `parse_test_line` (source lines 9-60).  Returns `none` exactly when the
`int()` conversion of the matched exit-code digits would raise (it never
does; see `parse_test_line_total`). -/
def parse_test_line (line : String) : Option TestResultRecord :=
  let l := line.data
  let timestamp := matchTimestamp l
  let status := ((spanStrings l).find? hasKey).map String.mk
  let link := ((findATagAttrs l).bind hrefOf).map String.mk
  let rest := restOfLine l
  let dur := findDur rest
  let test_command := dur.map (fun p => String.mk (pyStrip p.1))
  let duration := dur.map (fun p => String.mk p.2)
  let target := (findTarget rest).map String.mk
  match findCode rest with
  | none =>
    some { timestamp, status, link, test_command, duration, exit_code := none, target }
  | some ds =>
    (decimalToNat? ds).map fun n =>
      { timestamp, status, link, test_command, duration, exit_code := some n, target }

/-- Lexicographic code-point order on character lists: the order Python uses
to compare strings (and hence the order of pandas `groupby` keys). -/
def strLt : List Char → List Char → Bool
  | [], [] => false
  | [], _ :: _ => true
  | _ :: _, [] => false
  | a :: as, b :: bs =>
    if a.toNat = b.toNat then strLt as bs
    else decide (a.toNat < b.toNat)

/-- Python string comparison, lifted to `String`. -/
def strLtS (a b : String) : Bool := strLt a.data b.data

/-- Insert a key into a strictly ascending, duplicate-free key list
(building the sorted distinct group keys of pandas `groupby`). -/
def insertKey (k : String) : List String → List String
  | [] => [k]
  | x :: xs =>
    if strLtS k x then k :: x :: xs
    else if k = x then x :: xs
    else x :: insertKey k xs

/-- One parsed timestamp resolved to a calendar date-time (the script prefixes
the current year, so all records share the year and it does not participate
in the ordering). -/
structure DateTime where
  month : Nat
  day : Nat
  hour : Nat
  minute : Nat
  second : Nat
deriving DecidableEq, Repr

/-- Lexicographic `a ≤ b` on resolved date-times. -/
def dtLe (a b : DateTime) : Bool :=
  if a.month ≠ b.month then decide (a.month < b.month)
  else if a.day ≠ b.day then decide (a.day < b.day)
  else if a.hour ≠ b.hour then decide (a.hour < b.hour)
  else if a.minute ≠ b.minute then decide (a.minute < b.minute)
  else decide (a.second ≤ b.second)

def isLeapYear (y : Nat) : Bool :=
  (y % 4 == 0 && y % 100 != 0) || (y % 400 == 0)

def daysInMonth (y m : Nat) : Nat :=
  if m = 2 then (if isLeapYear y then 29 else 28)
  else if m = 4 || m = 6 || m = 9 || m = 11 then 30
  else 31

/-- Two decimal digit characters as a number. -/
def digits2 (a b : Char) : Option Nat :=
  if a.isDigit && b.isDigit then some ((a.toNat - 48) * 10 + (b.toNat - 48))
  else none

/-- `parse_datetime` (source lines 88-96): `pd.to_datetime(f"{year}-{dt_str}",
format="%Y-%m-%d %H:%M:%S")` with the exception swallowed to `None`: strict
`MM-DD HH:MM:SS` shape plus calendar-range validation. -/
def parse_datetime (year : Nat) (s : Option String) : Option DateTime :=
  match s with
  | none => none
  | some str =>
    match str.data with
    | [m1, m2, '-', d1, d2, ' ', h1, h2, ':', n1, n2, ':', s1, s2] =>
      match digits2 m1 m2, digits2 d1 d2, digits2 h1 h2, digits2 n1 n2, digits2 s1 s2 with
      | some mo, some da, some ho, some mi, some se =>
        if 1 ≤ mo ∧ mo ≤ 12 ∧ 1 ≤ da ∧ da ≤ daysInMonth year mo ∧ ho ≤ 23 ∧ mi ≤ 59 ∧ se ≤ 59
        then some ⟨mo, da, ho, mi, se⟩
        else none
      | _, _, _, _, _ => none
    | _ => none

/-- A parsed record together with its resolved `datetime` column. -/
structure ResolvedRecord where
  record : TestResultRecord
  datetime : Option DateTime
deriving DecidableEq, Repr

def resolve (year : Nat) (r : TestResultRecord) : ResolvedRecord :=
  ⟨r, parse_datetime year r.timestamp⟩

/-- `df[df["datetime"] >= cutoff_time]`: a NaT (`none`) datetime compares
false, so such rows are dropped. -/
def filterRecent (cutoff : DateTime) (rs : List ResolvedRecord) : List ResolvedRecord :=
  rs.filter fun r =>
    match r.datetime with
    | some d => dtLe cutoff d
    | none => false

/-- One row of `test_summary` (source lines 112-131). -/
structure TestSummaryRow where
  test_command : String
  total_runs : Nat
  failed_count : Nat
  flaked_count : Nat
  exit_codes : List (Option Nat)
  durations : List (Option String)
deriving DecidableEq, Repr

/-- The rows grouped under key `k`: records whose `test_command` equals `k`
(pandas `groupby` drops null keys, so only `some k` records ever group). -/
def groupOf (rs : List ResolvedRecord) (k : String) : List ResolvedRecord :=
  rs.filter fun r => r.record.test_command == some k

/-- The aggregation of source lines 112-131 for one group: `"count"` counts
non-null statuses, the two lambdas count `== "FAILED"` / `== "FLAKED"` over
all rows, `unique` deduplicates exit codes keeping first appearance (null
included as a value), `list` keeps all durations in encounter order. -/
def mkRow (k : String) (g : List ResolvedRecord) : TestSummaryRow :=
  { test_command := k
    total_runs := g.countP fun r => r.record.status.isSome
    failed_count := g.countP fun r => r.record.status == some "FAILED"
    flaked_count := g.countP fun r => r.record.status == some "FLAKED"
    exit_codes := dedupFirst (g.map fun r => r.record.exit_code)
    durations := g.map fun r => r.record.duration }

/-- Distinct non-null `test_command` keys in ascending Python-string order:
the group keys produced by `df_recent.groupby("test_command")`. -/
def sortedKeys (rs : List ResolvedRecord) : List String :=
  (rs.filterMap fun r => r.record.test_command).foldr insertKey []

/-- The grouped (but not yet ranked) summary frame. -/
def summaryRows (rs : List ResolvedRecord) : List TestSummaryRow :=
  (sortedKeys rs).map fun k => mkRow k (groupOf rs k)

/-- Insertion step for a descending sort on `total_runs`: an element is
placed before the first existing element with `total_runs ≤` its own. -/
def descInsert (a : TestSummaryRow) : List TestSummaryRow → List TestSummaryRow
  | [] => [a]
  | x :: xs =>
    if x.total_runs ≤ a.total_runs then a :: x :: xs
    else x :: descInsert a xs

/-- `test_summary.sort_values("total_runs", ascending=False)`.  The source
uses pandas' default kind='quicksort', which is documented as not stable, so
the program only guarantees the descending order of the sort key, not the
relative order of ties; the embedding fixes one concrete descending sort
(an insertion sort) to stay executable, and the theorems about it rely only
on the key order.  Tie order is used only on two-element inputs, where
numpy's sort provably keeps the input order of equal keys. -/
def sortDesc : List TestSummaryRow → List TestSummaryRow
  | [] => []
  | a :: l => descInsert a (sortDesc l)

/-- The final ranked summary of source lines 112-134. -/
def test_summary (rs : List ResolvedRecord) : List TestSummaryRow :=
  sortDesc (summaryRows rs)

/-- Modelled from the spec: "first-appearance order of the test command in
the filtered set" — the tie-break order the spec asserts, for comparison
with the order the code produces. -/
def firstAppearanceOrder (rs : List ResolvedRecord) : List String :=
  dedupFirst (rs.filterMap fun r => r.record.test_command)

/-- Observable output of the reporting phase: lines printed to stdout and
names of files written. -/
structure RunOutput where
  printed : List String
  files : List String
deriving Repr

/-- The reporting phase of `main` (source lines 105-162).  In the non-empty
branch the per-row print formatting is abstracted to the ranked command
names; the empty branch and the set of files written are modelled exactly. -/
def reportPhase (df : List ResolvedRecord) (cutoff : DateTime) : RunOutput :=
  let dfRecent := filterRecent cutoff df
  let head := ["Tests from the last 48 hours: " ++ toString dfRecent.length,
               "Total tests in dataset: " ++ toString df.length, ""]
  if 0 < dfRecent.length then
    let summary := test_summary dfRecent
    { printed := head ++ ["Most frequently failing/flakey tests in the last 48 hours:"] ++
        ((summary.take 10).map fun row => row.test_command) ++ ["Summary by status:"]
      files := ["failed_tests_48h.csv", "test_summary_48h.csv"] }
  else
    { printed := head ++ ["No test failures found in the last 48 hours"], files := [] }

/-! ## Helper lemmas about the scanners -/

theorem takeWhile_all {α : Type} (p : α → Bool) : ∀ l : List α, (l.takeWhile p).all p = true := by
  intro l
  induction l with
  | nil => rfl
  | cons a l ih =>
    rw [List.takeWhile_cons]
    by_cases h : p a
    · simp [h, ih]
    · simp [h]

theorem takeWhile_append_stop {α : Type} {p : α → Bool} :
    ∀ {ds : List α} (c : α) (xs : List α), ds.all p = true → p c = false →
      (ds ++ c :: xs).takeWhile p = ds ∧ (ds ++ c :: xs).dropWhile p = c :: xs := by
  intro ds
  induction ds with
  | nil =>
    intro c xs _ hc
    constructor
    · simp [List.takeWhile_cons, hc]
    · simp [List.dropWhile_cons, hc]
  | cons a ds ih =>
    intro c xs hall hc
    rw [List.all_cons, Bool.and_eq_true] at hall
    obtain ⟨ha, hall⟩ := hall
    obtain ⟨h1, h2⟩ := ih c xs hall hc
    constructor
    · simp [List.takeWhile_cons, ha, h1]
    · simp [List.dropWhile_cons, ha, h2]

theorem matchCodeAt_digits {l ds : List Char} (h : matchCodeAt l = some ds) :
    ds.isEmpty = false ∧ ds.all Char.isDigit = true := by
  unfold matchCodeAt at h
  split at h
  · split at h
    · rename_i hcond
      injection h with h
      subst h
      exact ⟨hcond.1, takeWhile_all _ _⟩
    · exact absurd h (by simp)
  · exact absurd h (by simp)

theorem findCode_digits : ∀ {l ds : List Char}, findCode l = some ds →
    ds.isEmpty = false ∧ ds.all Char.isDigit = true := by
  intro l
  induction l with
  | nil => intro ds h; exact absurd h (by simp [findCode])
  | cons c cs ih =>
    intro ds h
    unfold findCode at h
    cases hm : matchCodeAt (c :: cs) with
    | some x => rw [hm] at h; injection h with h; subst h; exact matchCodeAt_digits hm
    | none => rw [hm] at h; exact ih h

theorem decimalToNat?_isSome {ds : List Char} (h1 : ds.isEmpty = false)
    (h2 : ds.all Char.isDigit = true) : ∃ n, decimalToNat? ds = some n := by
  refine ⟨ds.foldl (fun n c => 10 * n + (c.toNat - 48)) 0, ?_⟩
  unfold decimalToNat?
  rw [h1, h2]
  simp

theorem parse_test_line_isSome (line : String) : (parse_test_line line).isSome = true := by
  simp only [parse_test_line]
  split
  · rfl
  · rename_i ds hc
    obtain ⟨h1, h2⟩ := findCode_digits hc
    obtain ⟨n, hn⟩ := decimalToNat?_isSome h1 h2
    rw [hn]
    rfl

/-- The seven fields of a successfully parsed record, each expressed by the
scanner that produced it. -/
theorem parse_fields {line : String} {r : TestResultRecord}
    (h : parse_test_line line = some r) :
    r.timestamp = matchTimestamp line.data ∧
    r.status = ((spanStrings line.data).find? hasKey).map String.mk ∧
    r.link = ((findATagAttrs line.data).bind hrefOf).map String.mk ∧
    r.test_command = (findDur (restOfLine line.data)).map (fun p => String.mk (pyStrip p.1)) ∧
    r.duration = (findDur (restOfLine line.data)).map (fun p => String.mk p.2) ∧
    r.exit_code = (findCode (restOfLine line.data)).bind decimalToNat? ∧
    r.target = (findTarget (restOfLine line.data)).map String.mk := by
  simp only [parse_test_line] at h
  split at h
  next hc =>
    injection h with h
    subst h
    simp [hc]
  next ds hc =>
    cases hn : decimalToNat? ds with
    | none => rw [hn] at h; exact absurd h (by simp)
    | some n =>
      rw [hn] at h
      simp only [Option.map_some'] at h
      injection h with h
      subst h
      simp [hc, hn]

/-- C6: `parse_line` is total — for every input line it returns a record;
in particular the `int()` conversion of a matched exit code never fails,
because the regex only ever captures a non-empty digit string. -/
theorem parse_test_line_total (line : String) :
    ∃ r : TestResultRecord, parse_test_line line = some r :=
  Option.isSome_iff_exists.mp (parse_test_line_isSome line)

def sampleLine : String :=
  "07-01 12:00:00: <span>FAILED</span> (<a href=\"http://x/1\">log</a></span>): some/test/cmd (30s) (code: 1) (target: next)"

def sampleRec : TestResultRecord :=
  { timestamp := some "07-01 12:00:00", status := some "FAILED", link := some "http://x/1",
    test_command := some "some/test/cmd", duration := some "30s", exit_code := some 1,
    target := some "next" }

/-- C5: the spec's sample line parses to exactly the record the spec gives. -/
theorem sample_line_parses : parse_test_line sampleLine = some sampleRec := by decide

def badLine1 : String := "<span>XFAILEDX</span>"

/-- C1 counterexample: this line has no inline markup whose text is exactly
"FAILED" or "FLAKED" (its only span text is "XFAILEDX"), yet the parser sets
`status` to `"XFAILEDX"` rather than null, because the source tests the span
text with `re.compile(r"(FAILED|FLAKED)")` — a substring search — and then
returns the whole span text. -/
theorem status_substring_counterexample :
    ((spanStrings badLine1.data).all fun t =>
      !(String.mk t == "FAILED" || String.mk t == "FLAKED")) = true ∧
    (parse_test_line badLine1).map (fun r => r.status) = some (some "XFAILEDX") := by
  decide

theorem find?_first {α : Type} (p : α → Bool) :
    ∀ (pre : List α) (t : α) (post : List α), (∀ u ∈ pre, p u = false) → p t = true →
      List.find? p (pre ++ t :: post) = some t := by
  intro pre
  induction pre with
  | nil =>
    intro t post _ ht
    exact List.find?_cons_of_pos _ ht
  | cons u pre ih =>
    intro t post hall ht
    rw [List.cons_append, List.find?_cons_of_neg _ (by simp [hall u (by simp)])]
    exact ih t post (fun v hv => hall v (by simp [hv])) ht

/-- The model covers the BeautifulSoup `tag.string` cases beyond flat spans:
a single-child chain and a span left unclosed at end of input both yield the
nested text. -/
theorem spanStrings_bs4_cases :
    spanStrings (String.data "<span><b>FAILED</b></span>") = ["FAILED".data] ∧
    spanStrings (String.data "<span>FAILED") = ["FAILED".data] := by
  decide

/-- C1 (amended): `status` is the full `tag.string` of the first span (in
document order) whose string contains "FAILED" or "FLAKED" as a substring —
whenever such a span exists — and `status` is null when no span's string
contains either substring.  Stated over any split of the document-order span
strings at the first match, so it forces both non-nullness and firstness. -/
theorem status_first_matching_span (line : String) (r : TestResultRecord)
    (h : parse_test_line line = some r) :
    ((∀ t ∈ spanStrings line.data, hasKey t = false) → r.status = none) ∧
    (∀ pre t post, spanStrings line.data = pre ++ t :: post →
      (∀ u ∈ pre, hasKey u = false) → hasKey t = true →
      r.status = some (String.mk t)) := by
  obtain ⟨-, hs, -, -, -, -, -⟩ := parse_fields h
  constructor
  · intro hall
    have hnone : (spanStrings line.data).find? hasKey = none :=
      List.find?_eq_none.mpr (fun x hx => by simp [hall x hx])
    simp [hs, hnone]
  · intro pre t post hdec hpre ht
    have hfind : (spanStrings line.data).find? hasKey = some t := by
      rw [hdec]
      exact find?_first hasKey pre t post hpre ht
    rw [hs, hfind]
    rfl

def badLine2 : String := "x</a></span>)q cmd (5s) (code: 2) (target: t)"

/-- C2 counterexample: this line does not contain `</a></span>):` (the close
sequence is followed by `q`, not a colon), yet the remainder is non-empty and
all four remainder fields parse, because the source only searches for
`</a></span>)` and then skips 13 characters whatever the 13th is. -/
theorem rest_marker_counterexample :
    containsStr badLine2.data markerColon = false ∧
    (parse_test_line badLine2).map
      (fun r => (r.test_command, r.duration, r.exit_code, r.target)) =
      some (some "cmd", some "5s", some 2, some "t") := by
  decide

/-- C2 (amended): for every line that does not contain the literal sequence
`</a></span>)` (no colon required — the code's needle stops at the close
paren), the remainder-of-line is empty and `test_command`, `duration`,
`exit_code` and `target` are all null. -/
theorem rest_empty_without_marker (line : String) (r : TestResultRecord)
    (h : parse_test_line line = some r)
    (hm : containsStr line.data marker12 = false) :
    restOfLine line.data = [] ∧ r.test_command = none ∧ r.duration = none ∧
    r.exit_code = none ∧ r.target = none := by
  have hnone : findSubstr line.data marker12 = none := by
    unfold containsStr at hm
    exact Option.not_isSome_iff_eq_none.mp (by simp [hm])
  have hrest : restOfLine line.data = [] := by simp [restOfLine, hnone]
  obtain ⟨-, -, -, htc, hd, he, ht⟩ := parse_fields h
  rw [hrest] at htc hd he ht
  exact ⟨hrest, by simp [htc, findDur], by simp [hd, findDur], by simp [he, findCode],
    by simp [ht, findTarget]⟩

/-- C8: when the remainder-of-line begins with a duration token `(<digits>s)`,
the parsed `test_command` is the empty string — present, not null. -/
theorem leading_duration_empty_command (line : String) (r : TestResultRecord)
    (h : parse_test_line line = some r)
    (hd : (matchDurAt (restOfLine line.data)).isSome = true) :
    r.test_command = some "" := by
  obtain ⟨-, -, -, htc, -, -, -⟩ := parse_fields h
  cases hrest : restOfLine line.data with
  | nil =>
    rw [hrest] at hd
    simp [matchDurAt] at hd
  | cons c cs =>
    rw [hrest] at hd htc
    obtain ⟨g, hg⟩ := Option.isSome_iff_exists.mp hd
    rw [htc]
    unfold findDur
    rw [hg]
    rfl

/-! ## The leftmost-match property of the duration scanner (for C9) -/

theorem matchDurAt_some : ∀ {l g : List Char}, matchDurAt l = some g →
    ∃ ds w, l = '(' :: (ds ++ 's' :: ')' :: w) ∧ ds.isEmpty = false ∧
      ds.all Char.isDigit = true ∧ g = ds ++ ['s'] := by
  intro l g h
  cases l with
  | nil => exact absurd h (by simp [matchDurAt])
  | cons c rest =>
    rw [matchDurAt] at h
    split at h
    · rename_i hcond
      obtain ⟨hc, hne, hsp⟩ := hcond
      obtain ⟨w, hw⟩ := List.isPrefixOf_iff_prefix.mp hsp
      injection h with h
      refine ⟨rest.takeWhile Char.isDigit, w, ?_, hne, takeWhile_all _ _, h.symm⟩
      subst hc
      congr 1
      conv_lhs => rw [← List.takeWhile_append_dropWhile (p := Char.isDigit) (l := rest)]
      rw [← hw]
      simp
    · exact absurd h (by simp)

theorem matchDurAt_token {ds w : List Char} (h1 : ds.isEmpty = false)
    (h2 : ds.all Char.isDigit = true) :
    matchDurAt ('(' :: (ds ++ 's' :: ')' :: w)) = some (ds ++ ['s']) := by
  obtain ⟨ht, hd⟩ := takeWhile_append_stop (p := Char.isDigit) 's' (')' :: w) h2 (by decide)
  rw [matchDurAt, ht, hd, if_pos ⟨rfl, h1, by simp [List.isPrefixOf]⟩]

theorem matchDurAt_append {v w : List Char} (h : (matchDurAt v).isSome = true) :
    (matchDurAt (v ++ w)).isSome = true := by
  obtain ⟨g, hg⟩ := Option.isSome_iff_exists.mp h
  obtain ⟨ds, t, hv, hne, hdig, -⟩ := matchDurAt_some hg
  subst hv
  have hassoc : ('(' :: (ds ++ 's' :: ')' :: t)) ++ w = '(' :: (ds ++ 's' :: ')' :: (t ++ w)) := by
    simp
  rw [hassoc, matchDurAt_token hne hdig]
  rfl

theorem hasDurB_split : ∀ {l : List Char}, hasDurB l = true →
    ∃ u v, l = u ++ v ∧ (matchDurAt v).isSome = true := by
  intro l
  induction l with
  | nil => intro h; simp [hasDurB] at h
  | cons c cs ih =>
    intro h
    unfold hasDurB at h
    rw [Bool.or_eq_true] at h
    rcases h with h1 | h2
    · exact ⟨[], c :: cs, rfl, h1⟩
    · obtain ⟨u, v, heq, hv⟩ := ih h2
      exact ⟨c :: u, v, by rw [heq]; rfl, hv⟩

theorem hasDurB_of_split : ∀ (u : List Char) {v : List Char},
    (matchDurAt v).isSome = true → hasDurB (u ++ v) = true := by
  intro u
  induction u with
  | nil =>
    intro v hv
    cases v with
    | nil => simp [matchDurAt] at hv
    | cons c cs =>
      simp only [List.nil_append]
      unfold hasDurB
      rw [hv, Bool.true_or]
  | cons a u ih =>
    intro v hv
    simp only [List.cons_append]
    unfold hasDurB
    rw [ih hv, Bool.or_true]

theorem findDur_decomp : ∀ {l b g : List Char}, findDur l = some (b, g) →
    ∃ t, l = b ++ t := by
  intro l
  induction l with
  | nil => intro b g h; simp [findDur] at h
  | cons c cs ih =>
    intro b g h
    unfold findDur at h
    cases hm : matchDurAt (c :: cs) with
    | some x =>
      rw [hm] at h
      injection h with h
      rw [Prod.mk.injEq] at h
      obtain ⟨hb, -⟩ := h
      exact ⟨c :: cs, by rw [← hb]; rfl⟩
    | none =>
      rw [hm] at h
      cases hf : findDur cs with
      | none => rw [hf] at h; simp at h
      | some p =>
        obtain ⟨p1, p2⟩ := p
        rw [hf] at h
        simp only [Option.map_some'] at h
        injection h with h
        rw [Prod.mk.injEq] at h
        obtain ⟨hb, -⟩ := h
        obtain ⟨t, ht⟩ := ih hf
        exact ⟨t, by rw [← hb, List.cons_append, ← ht]⟩

theorem findDur_earlier_none : ∀ {l b g : List Char}, findDur l = some (b, g) →
    ∀ u v, l = u ++ v → u.length < b.length → matchDurAt v = none := by
  intro l
  induction l with
  | nil => intro b g h; simp [findDur] at h
  | cons c cs ih =>
    intro b g h u v heq hlt
    unfold findDur at h
    cases hm : matchDurAt (c :: cs) with
    | some x =>
      rw [hm] at h
      injection h with h
      rw [Prod.mk.injEq] at h
      obtain ⟨hb, -⟩ := h
      rw [← hb] at hlt
      simp at hlt
    | none =>
      rw [hm] at h
      cases hf : findDur cs with
      | none => rw [hf] at h; simp at h
      | some p =>
        obtain ⟨p1, p2⟩ := p
        rw [hf] at h
        simp only [Option.map_some'] at h
        injection h with h
        rw [Prod.mk.injEq] at h
        obtain ⟨hb, -⟩ := h
        cases u with
        | nil =>
          simp only [List.nil_append] at heq
          rw [← heq]
          exact hm
        | cons a u =>
          rw [List.cons_append] at heq
          injection heq with h1 h2
          have hlen : u.length < p1.length := by
            rw [← hb] at hlt
            simp only [List.length_cons] at hlt
            omega
          exact ih hf u v h2 hlen

theorem pyStrip_decomp (l : List Char) : ∃ u v, l = u ++ pyStrip l ++ v := by
  refine ⟨l.takeWhile pySpace, ((l.dropWhile pySpace).reverse.takeWhile pySpace).reverse, ?_⟩
  unfold pyStrip
  conv_lhs => rw [← List.takeWhile_append_dropWhile (p := pySpace) (l := l)]
  rw [List.append_assoc]
  congr 1
  have h1 : (l.dropWhile pySpace).reverse.takeWhile pySpace ++
      (l.dropWhile pySpace).reverse.dropWhile pySpace = (l.dropWhile pySpace).reverse :=
    List.takeWhile_append_dropWhile _ _
  calc l.dropWhile pySpace
      = (l.dropWhile pySpace).reverse.reverse := by rw [List.reverse_reverse]
    _ = ((l.dropWhile pySpace).reverse.takeWhile pySpace ++
        (l.dropWhile pySpace).reverse.dropWhile pySpace).reverse := by rw [h1]
    _ = ((l.dropWhile pySpace).reverse.dropWhile pySpace).reverse ++
        ((l.dropWhile pySpace).reverse.takeWhile pySpace).reverse := by
        rw [List.reverse_append]

/-- C9: a record's non-null `test_command` never contains a `(<digits>s)`
token: the command is everything strictly before the leftmost duration token
of the remainder, so no such token can survive in it. -/
theorem command_has_no_duration_token (line : String) (r : TestResultRecord) (s : String)
    (h : parse_test_line line = some r) (hc : r.test_command = some s) :
    hasDurB s.data = false := by
  obtain ⟨-, -, -, htc, -, -, -⟩ := parse_fields h
  rw [htc] at hc
  cases hf : findDur (restOfLine line.data) with
  | none => rw [hf] at hc; simp at hc
  | some p =>
    obtain ⟨b, g⟩ := p
    rw [hf] at hc
    simp only [Option.map_some'] at hc
    injection hc with hc
    have hs : s.data = pyStrip b := by rw [← hc]
    by_contra hT
    rw [Bool.not_eq_false, hs] at hT
    obtain ⟨u0, v0, he0, hm0⟩ := hasDurB_split hT
    obtain ⟨uu, vv, hd⟩ := pyStrip_decomp b
    obtain ⟨t, hlt⟩ := findDur_decomp hf
    have hmono : (matchDurAt (v0 ++ (vv ++ t))).isSome = true := matchDurAt_append hm0
    have hsplit : restOfLine line.data = (uu ++ u0) ++ (v0 ++ (vv ++ t)) := by
      rw [hlt, hd, he0]
      simp [List.append_assoc]
    have hv0 : v0 ≠ [] := by
      intro hempty
      rw [hempty] at hm0
      simp [matchDurAt] at hm0
    have hlen : (uu ++ u0).length < b.length := by
      rw [hd, he0]
      have : 0 < v0.length := List.length_pos.mpr hv0
      simp only [List.length_append]
      omega
    have hnone := findDur_earlier_none hf (uu ++ u0) (v0 ++ (vv ++ t)) hsplit hlen
    rw [hnone] at hmono
    simp at hmono

/-! ## Order and membership lemmas for the summary sort -/

theorem mem_descInsert {a z : TestSummaryRow} : ∀ {s : List TestSummaryRow},
    z ∈ descInsert a s ↔ z = a ∨ z ∈ s := by
  intro s
  induction s with
  | nil => simp [descInsert]
  | cons x xs ih =>
    rw [descInsert]
    by_cases h : x.total_runs ≤ a.total_runs
    · rw [if_pos h]
      simp only [List.mem_cons]
    · rw [if_neg h]
      simp only [List.mem_cons, ih]
      tauto

theorem mem_sortDesc {z : TestSummaryRow} : ∀ {l : List TestSummaryRow},
    z ∈ sortDesc l ↔ z ∈ l := by
  intro l
  induction l with
  | nil => simp [sortDesc]
  | cons a l ih =>
    rw [sortDesc, mem_descInsert]
    simp only [List.mem_cons, ih]

theorem descInsert_sorted {a : TestSummaryRow} : ∀ {s : List TestSummaryRow},
    s.Pairwise (fun x y => y.total_runs ≤ x.total_runs) →
    (descInsert a s).Pairwise (fun x y => y.total_runs ≤ x.total_runs) := by
  intro s
  induction s with
  | nil => intro _; simp [descInsert]
  | cons x xs ih =>
    intro hp
    rw [List.pairwise_cons] at hp
    obtain ⟨hx, hxs⟩ := hp
    rw [descInsert]
    by_cases h : x.total_runs ≤ a.total_runs
    · rw [if_pos h]
      refine List.Pairwise.cons ?_ (List.Pairwise.cons hx hxs)
      intro y hy
      rcases List.mem_cons.mp hy with rfl | hy'
      · exact h
      · exact le_trans (hx y hy') h
    · rw [if_neg h]
      refine List.Pairwise.cons ?_ (ih hxs)
      intro z hz
      rcases mem_descInsert.mp hz with rfl | hz'
      · omega
      · exact hx z hz'

theorem sortDesc_sorted : ∀ (l : List TestSummaryRow),
    (sortDesc l).Pairwise (fun x y => y.total_runs ≤ x.total_runs) := by
  intro l
  induction l with
  | nil => exact List.Pairwise.nil
  | cons a l ih =>
    rw [sortDesc]
    exact descInsert_sorted ih

/-- C3 (amended): the ranked summary is sorted by `total_runs` descending.
The relative order of rows with equal `total_runs` is NOT the spec's
first-appearance order, and it is not guaranteed at all by the program:
`sort_values` runs with the pandas default kind='quicksort', which the
pandas documentation states is not stable, so tie order is unspecified in
general.  The descending ordering on `total_runs` is the program guarantee,
and that is what is proved (it holds for any correct descending sort,
whatever numpy does with ties). -/
theorem summary_sorted_desc (rs : List ResolvedRecord) :
    (test_summary rs).Pairwise (fun a b => b.total_runs ≤ a.total_runs) := by
  unfold test_summary
  exact sortDesc_sorted _

def trBlank : TestResultRecord :=
  { timestamp := none, status := none, link := none, test_command := none,
    duration := none, exit_code := none, target := none }

def rsTie : List ResolvedRecord :=
  [⟨{ trBlank with test_command := some "b", status := some "FAILED" }, none⟩,
   ⟨{ trBlank with test_command := some "a", status := some "FAILED" }, none⟩]

/-- C3 counterexample: two groups with equal `total_runs` whose commands
first appear in the order `b`, `a` are emitted in the order `a`, `b`:
`groupby` sorts the keys alphabetically, and on a two-element frame numpy's
sort (quicksort falls back to insertion sort below its small-array cutoff)
keeps equal keys in input order, so the program's output order here is
`a`, `b` — not the first-appearance order the claim requires. -/
theorem tie_order_counterexample :
    ((test_summary rsTie).map fun row => row.total_runs) = [1, 1] ∧
    ((test_summary rsTie).map fun row => row.test_command) = ["a", "b"] ∧
    firstAppearanceOrder rsTie = ["b", "a"] := by decide

/-! ## Counting lemmas for the per-group aggregation -/

theorem countP_add_le {α : Type} (p q t : α → Bool)
    (hpt : ∀ a, p a = true → t a = true) (hqt : ∀ a, q a = true → t a = true)
    (hpq : ∀ a, ¬(p a = true ∧ q a = true)) :
    ∀ l : List α, l.countP p + l.countP q ≤ l.countP t := by
  intro l
  induction l with
  | nil => simp [List.countP_nil]
  | cons a l ih =>
    rw [List.countP_cons, List.countP_cons, List.countP_cons]
    by_cases hp : p a = true
    · have ht := hpt a hp
      have hq : ¬ q a = true := fun hq => hpq a ⟨hp, hq⟩
      rw [if_pos hp, if_neg hq, if_pos ht]
      omega
    · by_cases hq : q a = true
      · have ht := hqt a hq
        rw [if_neg hp, if_pos hq, if_pos ht]
        omega
      · by_cases ht : t a = true
        · rw [if_neg hp, if_neg hq, if_pos ht]
          omega
        · rw [if_neg hp, if_neg hq, if_neg ht]
          omega

theorem countP_eq_all {α : Type} (p q t : α → Bool)
    (hpt : ∀ a, p a = true → t a = true) (hqt : ∀ a, q a = true → t a = true)
    (hpq : ∀ a, ¬(p a = true ∧ q a = true)) :
    ∀ l : List α, l.countP p + l.countP q = l.countP t →
      ∀ a ∈ l, t a = true → p a = true ∨ q a = true := by
  intro l
  induction l with
  | nil => intro _ a ha; exact absurd ha (by simp)
  | cons x l ih =>
    intro heq a ha hta
    rw [List.countP_cons, List.countP_cons, List.countP_cons] at heq
    have hle := countP_add_le p q t hpt hqt hpq l
    have hxle : (if p x = true then 1 else 0) + (if q x = true then 1 else 0) ≤
        (if t x = true then 1 else 0) := by
      by_cases hp : p x = true
      · have ht := hpt x hp
        have hq : ¬ q x = true := fun hq => hpq x ⟨hp, hq⟩
        rw [if_pos hp, if_neg hq, if_pos ht]
      · by_cases hq : q x = true
        · have ht := hqt x hq
          rw [if_neg hp, if_pos hq, if_pos ht]
        · by_cases ht : t x = true
          · rw [if_neg hp, if_neg hq, if_pos ht]
            omega
          · rw [if_neg hp, if_neg hq, if_neg ht]
    have hsplit : l.countP p + l.countP q = l.countP t ∧
        (if p x = true then 1 else 0) + (if q x = true then 1 else 0) =
          (if t x = true then 1 else 0) := by
      constructor <;> omega
    rcases List.mem_cons.mp ha with rfl | hal
    · have h2 := hsplit.2
      rw [if_pos hta] at h2
      by_cases hp : p a = true
      · exact Or.inl hp
      · by_cases hq : q a = true
        · exact Or.inr hq
        · rw [if_neg hp, if_neg hq] at h2
          omega
    · exact ih hsplit.1 a hal hta

/-- C4 (amended): for every summary row, `failed_count + flaked_count ≤
total_runs`, and equality forces every record of the group to have status
FAILED, FLAKED, **or null** — `total_runs` is pandas `count`, which counts
only non-null statuses, so null-status records never block equality. -/
theorem counts_bound_and_equality (rs : List ResolvedRecord) (row : TestSummaryRow)
    (hrow : row ∈ test_summary rs) :
    row.failed_count + row.flaked_count ≤ row.total_runs ∧
    (row.failed_count + row.flaked_count = row.total_runs →
      ∀ x ∈ rs, x.record.test_command = some row.test_command →
        x.record.status = some "FAILED" ∨ x.record.status = some "FLAKED" ∨
          x.record.status = none) := by
  have h1 : row ∈ summaryRows rs := mem_sortDesc.mp hrow
  obtain ⟨k, hk, hrw⟩ := List.mem_map.mp h1
  subst hrw
  have hpt : ∀ y : ResolvedRecord, (y.record.status == some "FAILED") = true →
      y.record.status.isSome = true := by
    intro y hy
    rw [beq_iff_eq] at hy
    rw [hy]
    rfl
  have hqt : ∀ y : ResolvedRecord, (y.record.status == some "FLAKED") = true →
      y.record.status.isSome = true := by
    intro y hy
    rw [beq_iff_eq] at hy
    rw [hy]
    rfl
  have hpq : ∀ y : ResolvedRecord, ¬((y.record.status == some "FAILED") = true ∧
      (y.record.status == some "FLAKED") = true) := by
    intro y hy
    obtain ⟨hy1, hy2⟩ := hy
    rw [beq_iff_eq] at hy1 hy2
    rw [hy1] at hy2
    exact absurd (Option.some.inj hy2) (by decide)
  constructor
  · exact countP_add_le _ _ _ hpt hqt hpq (groupOf rs k)
  · intro heq x hx hcmd
    have hcmd' : x.record.test_command = some k := hcmd
    have hg : x ∈ groupOf rs k := by
      rw [groupOf, List.mem_filter]
      refine ⟨hx, ?_⟩
      rw [beq_iff_eq]
      exact hcmd'
    have hall := countP_eq_all _ _ _ hpt hqt hpq (groupOf rs k) heq x hg
    by_cases hts : x.record.status.isSome = true
    · rcases hall hts with hp | hq
      · rw [beq_iff_eq] at hp
        exact Or.inl hp
      · rw [beq_iff_eq] at hq
        exact Or.inr (Or.inl hq)
    · exact Or.inr (Or.inr (Option.not_isSome_iff_eq_none.mp hts))

def rsNullStatus : List ResolvedRecord :=
  [⟨{ trBlank with test_command := some "t", status := some "FAILED" }, none⟩,
   ⟨{ trBlank with test_command := some "t", status := none }, none⟩]

/-- C4 counterexample: a group holding one FAILED record and one record with
null status yields `total_runs = 1` (pandas `count` skips nulls) and
`failed_count + flaked_count = 1 = total_runs`, so equality holds although a
record of the group has neither status FAILED nor FLAKED. -/
theorem counts_equality_counterexample :
    ((test_summary rsNullStatus).map fun row =>
      (row.test_command, row.total_runs, row.failed_count, row.flaked_count)) =
      [("t", 1, 1, 0)] ∧
    (rsNullStatus.any fun x =>
      x.record.test_command == some "t" && x.record.status == none) = true := by
  decide

theorem mem_dedupFirstAux {α : Type} [DecidableEq α] {a : α} :
    ∀ {l seen : List α}, a ∈ l → a ∉ seen → a ∈ dedupFirstAux l seen := by
  intro l
  induction l with
  | nil => intro seen ha _; exact absurd ha (by simp)
  | cons x xs ih =>
    intro seen ha hseen
    rw [dedupFirstAux]
    rcases List.mem_cons.mp ha with rfl | hxs
    · rw [if_neg hseen]
      exact List.mem_cons_self _ _
    · by_cases hx : x ∈ seen
      · rw [if_pos hx]
        exact ih hxs hseen
      · rw [if_neg hx]
        by_cases hax : a = x
        · subst hax
          exact List.mem_cons_self _ _
        · refine List.mem_cons_of_mem _ (ih hxs ?_)
          intro hmem
          rcases List.mem_cons.mp hmem with h | h
          · exact hax h
          · exact hseen h

/-- C10: when a group contains a record with null `exit_code`, the group's
`exit_codes` list contains a null entry — pandas `unique` keeps NaN as one of
the distinct values, in first-appearance order. -/
theorem null_exit_code_in_exit_codes (rs : List ResolvedRecord) (row : TestSummaryRow)
    (x : ResolvedRecord) (hrow : row ∈ test_summary rs) (hx : x ∈ rs)
    (hcmd : x.record.test_command = some row.test_command)
    (hec : x.record.exit_code = none) :
    none ∈ row.exit_codes := by
  have h1 : row ∈ summaryRows rs := mem_sortDesc.mp hrow
  obtain ⟨k, hk, hrw⟩ := List.mem_map.mp h1
  subst hrw
  have hg : x ∈ groupOf rs k := by
    rw [groupOf, List.mem_filter]
    refine ⟨hx, ?_⟩
    rw [beq_iff_eq]
    exact hcmd
  have hmem : (none : Option Nat) ∈ (groupOf rs k).map fun r => r.record.exit_code := by
    rw [List.mem_map]
    exact ⟨x, hg, hec⟩
  show (none : Option Nat) ∈ dedupFirstAux ((groupOf rs k).map fun r => r.record.exit_code) []
  exact mem_dedupFirstAux hmem (by simp)

/-- C7: when the 48-hour window filter leaves no records, the run prints the
two count lines (zero recent, total in dataset) plus the no-failures message,
produces no per-command summary output, and writes neither CSV file. -/
theorem empty_window_report (df : List ResolvedRecord) (cutoff : DateTime)
    (h : filterRecent cutoff df = []) :
    (reportPhase df cutoff).files = [] ∧
    (reportPhase df cutoff).printed =
      ["Tests from the last 48 hours: 0",
       "Total tests in dataset: " ++ toString df.length, "",
       "No test failures found in the last 48 hours"] := by
  unfold reportPhase
  rw [h]
  exact ⟨rfl, rfl⟩

/-! ## Witnesses: each hypothesis-bearing claim theorem applied at a
concrete input -/

theorem status_first_matching_span_witness : trBlank.status = none :=
  (status_first_matching_span "hello" trBlank (by decide)).1 (by decide)

theorem rest_empty_without_marker_witness :
    restOfLine (String.data "hello") = [] ∧ trBlank.test_command = none ∧
    trBlank.duration = none ∧ trBlank.exit_code = none ∧ trBlank.target = none :=
  rest_empty_without_marker "hello" trBlank (by decide) (by decide)

theorem counts_bound_witness :
    (mkRow "t" (groupOf rsNullStatus "t")).failed_count +
      (mkRow "t" (groupOf rsNullStatus "t")).flaked_count ≤
      (mkRow "t" (groupOf rsNullStatus "t")).total_runs :=
  (counts_bound_and_equality rsNullStatus (mkRow "t" (groupOf rsNullStatus "t"))
    (by decide)).1

theorem empty_window_report_witness :
    (reportPhase [] ⟨1, 1, 0, 0, 0⟩).files = [] ∧
    (reportPhase [] ⟨1, 1, 0, 0, 0⟩).printed =
      ["Tests from the last 48 hours: 0",
       "Total tests in dataset: " ++ toString ([] : List ResolvedRecord).length, "",
       "No test failures found in the last 48 hours"] :=
  empty_window_report [] ⟨1, 1, 0, 0, 0⟩ rfl

def line8 : String := "x</a></span>): (30s)"

def rec8 : TestResultRecord :=
  { timestamp := none, status := none, link := none, test_command := some "",
    duration := some "30s", exit_code := none, target := none }

theorem leading_duration_empty_command_witness : rec8.test_command = some "" :=
  leading_duration_empty_command line8 rec8 (by decide) (by decide)

theorem command_has_no_duration_token_witness :
    hasDurB (String.data "some/test/cmd") = false :=
  command_has_no_duration_token sampleLine sampleRec "some/test/cmd" (by decide) (by decide)

def rsNullCode : List ResolvedRecord :=
  [⟨{ trBlank with test_command := some "t" }, none⟩]

theorem null_exit_code_in_exit_codes_witness :
    (none : Option Nat) ∈ (mkRow "t" (groupOf rsNullCode "t")).exit_codes :=
  null_exit_code_in_exit_codes rsNullCode (mkRow "t" (groupOf rsNullCode "t"))
    ⟨{ trBlank with test_command := some "t" }, none⟩
    (by decide) (by decide) (by decide) (by decide)
